import Mathlib

/-!
Verification of the calculator expression pipeline (`src/App.tsx`).

The source is a single React component. We embed its pure state logic:
the input normalizer (`handleCalculate`, lines 116-117), the angle-mode
scope construction (lines 119-126), the evaluate / fallback control flow
(lines 111-156), the speech-transcript canonicalizer
(`recognition.onresult`, lines 195-225), the keypad dispatcher
(`handleButtonClick`, lines 230-269) and the history-selection handler
(`handleHistoryClick`, lines 271-275).

The third-party primary engine (`mathjs.evaluate`) and the external
fallback service (`calculateWithGemini`) are modelled as oracle
parameters; the claims under verification only constrain how `App.tsx`
drives them.
-/

namespace Calculator

/-! ## Expression Normalizer (App.tsx lines 116-117)

`input.replace(/×/g,'*').replace(/÷/g,'/').replace(/π/g,'pi')
      .replace(/lg\(/g,'log10(').replace(/ln\(/g,'log(')`

JavaScript `String.replace` with a global literal pattern replaces the
non-overlapping occurrences left to right and does not rescan the
replacement text.  We model strings as `List Char`. -/

/-- Global replacement of the single character `a` by the string `r`. -/
def replaceChar (a : Char) (r : List Char) : List Char → List Char
  | [] => []
  | c :: cs => (if c = a then r else [c]) ++ replaceChar a r cs

/-- Global left-to-right replacement of the three-character pattern
`p1 p2 p3` by `r`; after a match the scan resumes past the match, so the
replacement text is not rescanned (JavaScript `replace` semantics). -/
def replaceTriple (p1 p2 p3 : Char) (r : List Char) : List Char → List Char
  | [] => []
  | [c] => [c]
  | [c, d] => [c, d]
  | c :: d :: e :: cs =>
    if c = p1 ∧ d = p2 ∧ e = p3 then r ++ replaceTriple p1 p2 p3 r cs
    else c :: replaceTriple p1 p2 p3 r (d :: e :: cs)

/-- The three-character pattern `p1 p2 p3` occurs somewhere in the list. -/
def hasTriple (p1 p2 p3 : Char) : List Char → Prop
  | c :: d :: e :: cs => (c = p1 ∧ d = p2 ∧ e = p3) ∨ hasTriple p1 p2 p3 (d :: e :: cs)
  | _ => False

/-- The rewrite chain of `handleCalculate` lines 116-117, on `List Char`. -/
def normalizeData (l : List Char) : List Char :=
  replaceTriple 'l' 'n' '(' ['l', 'o', 'g', '(']
    (replaceTriple 'l' 'g' '(' ['l', 'o', 'g', '1', '0', '(']
      (replaceChar 'π' ['p', 'i']
        (replaceChar '÷' ['/']
          (replaceChar '×' ['*'] l))))

/-- The Expression Normalizer's rewrite step. -/
def normalize (s : String) : String :=
  String.mk (normalizeData s.data)

example : normalize "2×3÷4" = "2*3/4" := by decide
example : normalize "lg(2)+ln(3)+π" = "log10(2)+log(3)+pi" := by decide

/-! ## Angle-mode evaluation scope (App.tsx lines 119-126)

`const scope = isDegrees ? { sin: x => Math.sin(x * Math.PI / 180), ... } : {};`

The underlying numeric primitives (`Math.sin`, …, `Math.PI`) are opaque
to `App.tsx`; we abstract them as a structure over an arbitrary carrier
with multiplication and division, so the scope construction itself stays
exactly the source's. -/

/-- The numeric primitives the scope construction calls (`Math.*`). -/
structure MathPrims (α : Type) where
  sin : α → α
  cos : α → α
  tan : α → α
  asin : α → α
  acos : α → α
  atan : α → α
  pi : α

/-- The evaluation scope handed to `evaluate`, as built on lines 119-126:
a (name, implementation) map, empty unless `isDegrees`. -/
def buildScope (α : Type) [Mul α] [Div α] [OfNat α 180] (M : MathPrims α)
    (isDegrees : Bool) : List (String × (α → α)) :=
  if isDegrees then
    [("sin", fun x => M.sin (x * M.pi / 180)),
     ("cos", fun x => M.cos (x * M.pi / 180)),
     ("tan", fun x => M.tan (x * M.pi / 180)),
     ("asin", fun x => M.asin x * 180 / M.pi),
     ("acos", fun x => M.acos x * 180 / M.pi),
     ("atan", fun x => M.atan x * 180 / M.pi)]
  else []

/-! ## Session state and the evaluation request (App.tsx lines 111-156) -/

/-- One history record (`types.ts` `HistoryItem`): the entry pushed on
line 131/139 is `{ input, result, date: new Date() }`; we model the
timestamp as a `Nat`. -/
structure HistoryItem where
  input : String
  result : String
  date : Nat
deriving DecidableEq, Repr

/-- The `App` component state the pipeline reads and writes. -/
structure UiState where
  input : String
  result : String
  history : List HistoryItem
  isGemini : Bool
  isLoading : Bool
  isDegrees : Bool
  is2nd : Bool
deriving DecidableEq, Repr

/-- Outcome of the external fallback call `calculateWithGemini(input)`:
either the promise rejected (`threw`, caught on line 147), or it resolved
with a response object — `value none` models a falsy object, and
`value (some r)` models `{ result: r }`. -/
inductive FallbackResponse where
  | threw : FallbackResponse
  | value : Option String → FallbackResponse
deriving DecidableEq, Repr

/-- `handleCalculate` (lines 111-156), as a state transition.

* `prim isDegrees expr` is the oracle for the whole `try` body after
  normalization: `Number(evaluate(expr, scope).toFixed(10)).toString()`;
  `some f` means it produced the formatted text `f`, `none` that it threw.
* `fb` is the oracle for `calculateWithGemini`.
* `now` is the clock read by `new Date()`.

Besides the end state we return the list of arguments of the fallback
calls made during the request, so fallback invocation is observable. -/
def handleCalculate (prim : Bool → String → Option String)
    (fb : String → FallbackResponse) (now : Nat) (s : UiState) :
    UiState × List String :=
  if s.input = "" then (s, [])
  else
    match prim s.isDegrees (normalize s.input) with
    | some formatted =>
      ({ s with input := formatted, result := formatted,
                history := (⟨s.input, formatted, now⟩ :: s.history).take 20,
                isGemini := false, isLoading := false }, [])
    | none =>
      match fb s.input with
      | .value (some r) =>
        if r = "Error" then
          ({ s with input := "", result := "Error", isLoading := false }, [s.input])
        else
          ({ s with input := r, result := r,
                    history := (⟨s.input, r, now⟩ :: s.history).take 20,
                    isGemini := true, isLoading := false }, [s.input])
      | .value none =>
        ({ s with input := "", result := "Error", isLoading := false }, [s.input])
      | .threw =>
        ({ s with input := "", result := "API Error", isLoading := false }, [s.input])

/-- `handleClear` (lines 105-109). -/
def handleClear (s : UiState) : UiState :=
  { s with input := "", result := "0", isGemini := false }

/-- `handleHistoryClick` (lines 271-275): the raw handler receives a
string and copies it into both the input and the result. -/
def handleHistoryClick (v : String) (s : UiState) : UiState :=
  { s with input := v, result := v, isGemini := false }

/-- Modelled from the spec: the `Display` component (not part of the
pipeline source) wires a click on a history entry to
`handleHistoryClick` with that entry's stored `resultText`. -/
def selectHistoryEntry (e : HistoryItem) (s : UiState) : UiState :=
  handleHistoryClick e.result s

/-- The `functions` mapping of `handleButtonClick` (lines 233-240),
selected by the `is2nd` modifier. Every mapped string is nonempty, so
the JavaScript truthiness test `if (functions[value])` is modelled by
`Option.isSome`. -/
def funcMap (is2nd : Bool) (v : String) : Option String :=
  match v with
  | "sin" => some (if is2nd then "asin(" else "sin(")
  | "cos" => some (if is2nd then "acos(" else "cos(")
  | "tan" => some (if is2nd then "atan(" else "tan(")
  | "lg" => some (if is2nd then "10^" else "lg(")
  | "ln" => some (if is2nd then "e^" else "ln(")
  | "√" => some (if is2nd then "^2" else "sqrt(")
  | _ => none

/-- `handleButtonClick` (lines 230-269). The `MIC` case
(`handleMicClick`) starts or stops the browser speech-capture session;
it touches none of the modelled state synchronously — transcripts arrive
later through `onResult`. -/
def handleButtonClick (prim : Bool → String → Option String)
    (fb : String → FallbackResponse) (now : Nat) (v : String)
    (s : UiState) : UiState :=
  if s.isLoading then s
  else
    match funcMap s.is2nd v with
    | some f => { s with input := s.input ++ f }
    | none =>
      match v with
      | "AC" => handleClear s
      | "=" => (handleCalculate prim fb now s).1
      | "(" => { s with input := s.input ++ "(" }
      | ")" => { s with input := s.input ++ ")" }
      | "Deg" => { s with isDegrees := !s.isDegrees }
      | "2nd" => { s with is2nd := !s.is2nd }
      | "x^y" => { s with input := s.input ++ "^" }
      | "!" => { s with input := s.input ++ "!" }
      | "1/x" => { s with input := s.input ++ "1/" }
      | "e" => { s with input := s.input ++ "e" }
      | "π" => { s with input := s.input ++ "π" }
      | "MIC" => s
      | "DEL" => { s with input := s.input.dropRight 1 }
      | _ =>
        if s.result ≠ "0" ∧ s.input = s.result ∧
            v ∉ ["+", "-", "×", "÷", "%", "^"] then
          { s with input := v }
        else
          { s with input := s.input ++ v }

/-! ## Transcript Canonicalizer (App.tsx lines 195-225)

`recognition.onresult` lower-cases the transcript, applies an ordered
chain of whole-word regex replacements (`/\b(...)\b/gi`), strips every
character outside `0-9 + - * / ^ ( ) .`, and appends the result to the
input buffer.

A JavaScript word boundary `\b` separates a word character
(`[A-Za-z0-9_]`) from a non-word character. All replaced words start
and end with word characters, so a match at a position requires the
previous character to be a non-word character (or the string start) and
the character after the match to be a non-word character (or the end).
A global regex scan is left-to-right, non-overlapping, and resumes after
the replaced match without rescanning the replacement text. -/

/-- JavaScript `\w`: `[A-Za-z0-9_]`. -/
def isWordChar (c : Char) : Bool :=
  ('a' ≤ c && c ≤ 'z') || ('A' ≤ c && c ≤ 'Z') || ('0' ≤ c && c ≤ '9') || c == '_'

/-- The `\b` after a match: the rest of the input must not continue with
a word character. -/
def boundaryAfter (rest : List Char) : Bool :=
  match rest with
  | [] => true
  | c :: _ => !(isWordChar c)

/-- Try the regex alternatives in order at the current position; return
the length of the first alternative that matches with a trailing word
boundary. -/
def matchAt (pats : List (List Char)) (l : List Char) : Option Nat :=
  pats.findSome? fun p =>
    if p.isPrefixOf l && boundaryAfter (l.drop p.length) then some p.length
    else none

/-- One global whole-word replacement pass, scanning with fuel (the fuel
starts at the input length, which suffices because every step consumes
at least one input character — the replaced words are nonempty). `prevW`
records whether the previous input character was a word character, which
decides the leading `\b`. -/
def replaceWordAux (pats : List (List Char)) (r : List Char) :
    Nat → Bool → List Char → List Char
  | 0, _, l => l
  | _, _, [] => []
  | fuel + 1, prevW, c :: cs =>
    match if prevW then none else matchAt pats (c :: cs) with
    | some n => r ++ replaceWordAux pats r fuel true ((c :: cs).drop n)
    | none => c :: replaceWordAux pats r fuel (isWordChar c) cs

/-- `transcript.replace(/\b(p1|p2|...)\b/gi, r)` on lower-cased text. -/
def replaceWord (pats : List String) (r : String) (l : List Char) : List Char :=
  replaceWordAux (pats.map String.data) r.data l.length false l

/-- The ordered replacement chain of lines 199-218. -/
def transcriptSteps : List (List String × String) :=
  [(["one", "won"], "1"),
   (["two", "to", "too"], "2"),
   (["three"], "3"),
   (["four", "for"], "4"),
   (["five"], "5"),
   (["six"], "6"),
   (["seven"], "7"),
   (["eight"], "8"),
   (["nine"], "9"),
   (["zero"], "0"),
   (["plus", "add"], "+"),
   (["minus", "subtract"], "-"),
   (["times", "multiply", "multiplied by"], "*"),
   (["divided by", "divide", "over"], "/"),
   (["point", "dot"], "."),
   (["x"], "*"),
   (["power", "to the power of"], "^"),
   (["open parenthesis"], "("),
   (["close parenthesis"], ")")]

/-- Apply the replacement chain in order. -/
def applySteps : List (List String × String) → List Char → List Char
  | [], l => l
  | (pats, r) :: rest, l => applySteps rest (replaceWord pats r l)

/-- The character class kept by line 222's
`replace(/[^0-9+\-*\/^().]/g, '')`. -/
def allowedChar (c : Char) : Bool :=
  ('0' ≤ c && c ≤ '9') || c == '+' || c == '-' || c == '*' || c == '/' ||
    c == '^' || c == '(' || c == ')' || c == '.'

/-- The full Transcript Canonicalizer (lines 196-222): lower-case, run
the word replacements, strip everything outside the allowed set. -/
def sanitizeTranscript (t : String) : String :=
  String.mk ((applySteps transcriptSteps (t.data.map Char.toLower)).filter allowedChar)

/-- `recognition.onresult` (lines 195-225): the canonicalized transcript
is appended to the input buffer. The handler consults no other state —
in particular it does not check `isLoading`. -/
def onResult (t : String) (s : UiState) : UiState :=
  { s with input := s.input ++ sanitizeTranscript t }

example : sanitizeTranscript "two plus three times four" = "2+3*4" := by decide
example : sanitizeTranscript "hello world" = "" := by decide

/-! ## Claims about the evaluation request -/

/-- C1: the fallback interpreter is called iff the primary engine fails
on the normalized expression of a non-empty input, and the single call
carries the original unnormalized input text. -/
theorem fallback_called_iff_primary_fails
    (prim : Bool → String → Option String) (fb : String → FallbackResponse)
    (now : Nat) (s : UiState) :
    (handleCalculate prim fb now s).2 =
      if s.input ≠ "" ∧ prim s.isDegrees (normalize s.input) = none
      then [s.input] else [] := by
  by_cases h : s.input = ""
  · simp [handleCalculate, h]
  · cases hp : prim s.isDegrees (normalize s.input) with
    | some f => simp [handleCalculate, h, hp]
    | none =>
      cases hfb : fb s.input with
      | threw => simp [handleCalculate, h, hp, hfb]
      | value o =>
        cases o with
        | none => simp [handleCalculate, h, hp, hfb]
        | some r =>
          by_cases hr : r = "Error" <;> simp [handleCalculate, h, hp, hfb, hr]

/-- C2: when the primary engine fails and the fallback responds with the
literal `"Error"` or the fallback call itself throws, the request ends
with an error marker displayed, an empty input buffer, and the history
unchanged. -/
theorem fallback_failure_clears_input_keeps_history
    (prim : Bool → String → Option String) (fb : String → FallbackResponse)
    (now : Nat) (s : UiState)
    (h1 : s.input ≠ "")
    (h2 : prim s.isDegrees (normalize s.input) = none)
    (h3 : fb s.input = .value (some "Error") ∨ fb s.input = .threw) :
    (handleCalculate prim fb now s).1.input = "" ∧
    ((handleCalculate prim fb now s).1.result = "Error" ∨
      (handleCalculate prim fb now s).1.result = "API Error") ∧
    (handleCalculate prim fb now s).1.history = s.history := by
  rcases h3 with h3 | h3 <;> simp [handleCalculate, h1, h2, h3]

/-- Witness for C2 at the spec's own example input `"(2+3"`. -/
theorem fallback_failure_clears_input_keeps_history_witness :
    (handleCalculate (fun _ _ => none) (fun _ => .value (some "Error")) 0
        ⟨"(2+3", "0", [], false, false, false, false⟩).1.input = "" ∧
    ((handleCalculate (fun _ _ => none) (fun _ => .value (some "Error")) 0
        ⟨"(2+3", "0", [], false, false, false, false⟩).1.result = "Error" ∨
      (handleCalculate (fun _ _ => none) (fun _ => .value (some "Error")) 0
        ⟨"(2+3", "0", [], false, false, false, false⟩).1.result = "API Error") ∧
    (handleCalculate (fun _ _ => none) (fun _ => .value (some "Error")) 0
        ⟨"(2+3", "0", [], false, false, false, false⟩).1.history = [] :=
  fallback_failure_clears_input_keeps_history _ _ 0 _ (by decide) rfl (Or.inl rfl)

/-- C3: the history never exceeds 20 entries, and every successful
evaluation — primary or fallback — prepends exactly one entry and keeps
only the 20 most recent, so with a full history the oldest entry is
evicted. -/
theorem history_bounded_and_prepends
    (prim : Bool → String → Option String) (fb : String → FallbackResponse)
    (now : Nat) (s : UiState) (hlen : s.history.length ≤ 20) :
    (handleCalculate prim fb now s).1.history.length ≤ 20 ∧
    (∀ f, s.input ≠ "" → prim s.isDegrees (normalize s.input) = some f →
      (handleCalculate prim fb now s).1.history =
        (⟨s.input, f, now⟩ :: s.history).take 20) ∧
    (∀ r, s.input ≠ "" → prim s.isDegrees (normalize s.input) = none →
      fb s.input = .value (some r) → r ≠ "Error" →
      (handleCalculate prim fb now s).1.history =
        (⟨s.input, r, now⟩ :: s.history).take 20) ∧
    (s.history.length = 20 → ∀ e : HistoryItem,
      (e :: s.history).take 20 = e :: s.history.dropLast) := by
  refine ⟨?_, ?_, ?_, ?_⟩
  · by_cases h : s.input = ""
    · simpa [handleCalculate, h] using hlen
    · cases hp : prim s.isDegrees (normalize s.input) with
      | some f =>
        simp [handleCalculate, h, hp, List.length_take]
      | none =>
        cases hfb : fb s.input with
        | threw => simpa [handleCalculate, h, hp, hfb] using hlen
        | value o =>
          cases o with
          | none => simpa [handleCalculate, h, hp, hfb] using hlen
          | some r =>
            by_cases hr : r = "Error"
            · simpa [handleCalculate, h, hp, hfb, hr] using hlen
            · simp [handleCalculate, h, hp, hfb, hr, List.length_take]
  · intro f h hp
    simp [handleCalculate, h, hp]
  · intro r h hp hfb hr
    simp [handleCalculate, h, hp, hfb, hr]
  · intro h20 e
    have : (e :: s.history).take 20 = e :: s.history.take 19 := by
      simp [List.take_succ_cons]
    rw [this, List.dropLast_eq_take, h20]

/-- Witness for C3: a primary success on a full 20-entry history evicts
the oldest entry. -/
theorem history_bounded_and_prepends_witness :
    (handleCalculate (fun _ _ => some "4") (fun _ => .threw) 21
        ⟨"2+2", "0", (List.range 20).map (fun i => ⟨"1", "1", i⟩),
          false, false, false, false⟩).1.history.length ≤ 20 ∧
    (handleCalculate (fun _ _ => some "4") (fun _ => .threw) 21
        ⟨"2+2", "0", (List.range 20).map (fun i => ⟨"1", "1", i⟩),
          false, false, false, false⟩).1.history =
      (⟨"2+2", "4", 21⟩ :: (List.range 20).map (fun i => ⟨"1", "1", i⟩)).take 20 := by
  have h := history_bounded_and_prepends (fun _ _ => some "4") (fun _ => .threw) 21
    ⟨"2+2", "0", (List.range 20).map (fun i => ⟨"1", "1", i⟩),
      false, false, false, false⟩ (by decide)
  exact ⟨h.1, h.2.1 "4" (by decide) rfl⟩

/-- C5: the evaluation scope is a function of the angle mode alone: in
degrees mode it binds exactly `sin cos tan asin acos atan`, the direct
functions to wrappers converting the argument from degrees
(`x * π / 180`) and the inverse functions to wrappers converting the
result to degrees (`· * 180 / π`); in radians mode the scope is empty
(so the engine's own radian bindings apply unshadowed). -/
theorem scope_depends_only_on_angle_mode
    (α : Type) [Mul α] [Div α] [OfNat α 180] (M : MathPrims α) :
    (buildScope α M true).map Prod.fst =
      ["sin", "cos", "tan", "asin", "acos", "atan"] ∧
    (∀ x, ((buildScope α M true).lookup "sin").map (fun f => f x) =
      some (M.sin (x * M.pi / 180))) ∧
    (∀ x, ((buildScope α M true).lookup "cos").map (fun f => f x) =
      some (M.cos (x * M.pi / 180))) ∧
    (∀ x, ((buildScope α M true).lookup "tan").map (fun f => f x) =
      some (M.tan (x * M.pi / 180))) ∧
    (∀ x, ((buildScope α M true).lookup "asin").map (fun f => f x) =
      some (M.asin x * 180 / M.pi)) ∧
    (∀ x, ((buildScope α M true).lookup "acos").map (fun f => f x) =
      some (M.acos x * 180 / M.pi)) ∧
    (∀ x, ((buildScope α M true).lookup "atan").map (fun f => f x) =
      some (M.atan x * 180 / M.pi)) ∧
    buildScope α M false = [] :=
  ⟨rfl, fun _ => rfl, fun _ => rfl, fun _ => rfl, fun _ => rfl, fun _ => rfl,
    fun _ => rfl, rfl⟩

/-- C9: selecting a history entry copies its stored result text into
both the input buffer and the displayed result, whatever was being
composed. -/
theorem history_selection_restores_result (e : HistoryItem) (s : UiState) :
    (selectHistoryEntry e s).input = e.result ∧
    (selectHistoryEntry e s).result = e.result :=
  ⟨rfl, rfl⟩

/-- C7 counterexample: `recognition.onresult` never consults
`isLoading`, so a transcript finalized while an evaluation is in flight
still mutates the input buffer — here from `"1"` to `"12"` with
`isLoading = true`. -/
theorem transcript_appends_even_while_loading :
    UiState.isLoading ⟨"1", "0", [], false, true, false, false⟩ = true ∧
    (onResult "two" ⟨"1", "0", [], false, true, false, false⟩).input = "12" := by
  constructor
  · rfl
  · decide

/-- C7 as amended: a finalized transcript is appended to the input
buffer unconditionally, regardless of the evaluation state; only keypad
presses (including the MIC toggle) are ignored while loading. -/
theorem transcript_append_unconditional :
    (∀ t s, (onResult t s).input = s.input ++ sanitizeTranscript t) ∧
    (∀ prim fb now v s, s.isLoading = true →
      handleButtonClick prim fb now v s = s) := by
  refine ⟨fun t s => rfl, fun prim fb now v s h => ?_⟩
  unfold handleButtonClick
  rw [h]
  rfl

/-- Witness for the amended C7. -/
theorem transcript_append_unconditional_witness :
    (onResult "two" ⟨"1", "0", [], false, true, false, false⟩).input =
      "1" ++ sanitizeTranscript "two" ∧
    handleButtonClick (fun _ _ => none) (fun _ => .threw) 0 "MIC"
      ⟨"1", "0", [], false, true, false, false⟩ =
      ⟨"1", "0", [], false, true, false, false⟩ :=
  ⟨transcript_append_unconditional.1 "two" _,
    transcript_append_unconditional.2 _ _ 0 "MIC" _ rfl⟩

/-- Evaluation of the canonicalizer at a transcript no replacement
touches. -/
lemma sanitize_unmatched : sanitizeTranscript "hello world" = "" := by decide

/-- Evaluation of the canonicalizer at the spec's example transcript. -/
lemma sanitize_spoken_sum : sanitizeTranscript "two plus three times four" = "2+3*4" := by
  decide

attribute [irreducible] applySteps

/-- C8: the transcript canonicalizer appends to the input buffer rather
than replacing it, its output only contains characters from
`0-9 + - * / ^ ( ) .`, a fully-unmatched transcript appends the empty
string, and `"two plus three times four"` canonicalizes to `"2+3*4"`. -/
theorem transcript_canonicalizer_contract :
    (∀ t s, (onResult t s).input = s.input ++ sanitizeTranscript t) ∧
    (∀ t c, c ∈ (sanitizeTranscript t).data → allowedChar c = true) ∧
    sanitizeTranscript "hello world" = "" ∧
    sanitizeTranscript "two plus three times four" = "2+3*4" := by
  refine ⟨fun _ _ => rfl, fun t c hc => ?_, sanitize_unmatched, sanitize_spoken_sum⟩
  have h : (sanitizeTranscript t).data =
      List.filter allowedChar (applySteps transcriptSteps (t.data.map Char.toLower)) :=
    rfl
  rw [h] at hc
  exact (List.mem_filter.mp hc).2

/-- Witness for C8 at the spec's example transcript. -/
theorem transcript_canonicalizer_contract_witness :
    allowedChar '2' = true :=
  transcript_canonicalizer_contract.2.1 "two plus three times four" '2'
    (by rw [sanitize_spoken_sum]; decide)

set_option maxRecDepth 4096 in
set_option maxHeartbeats 1000000 in
/-- C10: with a shown result `≠ "0"` and the buffer equal to it, a plain
keypad literal outside `+ - × ÷ % ^` replaces the whole buffer, while
one of those operators appends. -/
theorem keypad_literal_replaces_shown_result
    (prim : Bool → String → Option String) (fb : String → FallbackResponse)
    (now : Nat) (v : String) (s : UiState)
    (hload : s.isLoading = false)
    (hfn : funcMap s.is2nd v = none)
    (hsw : v ∉ ["AC", "=", "(", ")", "Deg", "2nd", "x^y", "!", "1/x", "e",
      "π", "MIC", "DEL"]) :
    (s.result ≠ "0" → s.input = s.result → v ∉ ["+", "-", "×", "÷", "%", "^"] →
      (handleButtonClick prim fb now v s).input = v) ∧
    (v ∈ ["+", "-", "×", "÷", "%", "^"] →
      (handleButtonClick prim fb now v s).input = s.input ++ v) := by
  simp only [List.mem_cons, List.not_mem_nil, or_false, not_or] at hsw
  obtain ⟨n1, n2, n3, n4, n5, n6, n7, n8, n9, n10, n11, n12, n13⟩ := hsw
  constructor
  · intro hres hin hnop
    simp [handleButtonClick, hload, hfn, n1, n2, n3, n4, n5, n6, n7, n8, n9,
      n10, n11, n12, n13, hres, hin, hnop]
  · intro hop
    simp only [List.mem_cons, List.not_mem_nil, or_false] at hop
    rcases hop with rfl | rfl | rfl | rfl | rfl | rfl <;>
      simp [handleButtonClick, hload, hfn]

/-! ## Normalizer idempotence (towards C4)

The rewrite chain of lines 116-117 never reintroduces a pattern it (or a
later stage) rewrites: the single-character stages eliminate the three
rewritten glyphs and
insert only ASCII, and the two three-character stages insert `log10(` /
`log(`, in which neither `lg(` nor `ln(` occurs, not even spanning the
boundary with the unscanned rest. -/

lemma replaceChar_eq_self (a : Char) (r : List Char) :
    ∀ l : List Char, a ∉ l → replaceChar a r l = l
  | [], _ => rfl
  | c :: cs, h => by
    have hca : ¬(c = a) := fun hc => h (by simp [hc])
    have ih := replaceChar_eq_self a r cs (fun hm => h (List.mem_cons_of_mem c hm))
    simp [replaceChar, hca, ih]

lemma not_mem_replaceChar (a : Char) (r : List Char) (hr : a ∉ r) :
    ∀ l : List Char, a ∉ replaceChar a r l
  | [] => by simp [replaceChar]
  | c :: cs => by
    have ih := not_mem_replaceChar a r hr cs
    by_cases hc : c = a
    · simp [replaceChar, hc, hr, ih]
    · simp [replaceChar, hc, Ne.symm hc, ih]

lemma mem_replaceChar (a : Char) (r : List Char) (x : Char) :
    ∀ l : List Char, x ∈ replaceChar a r l → x ∈ r ∨ x ∈ l
  | [] => by simp [replaceChar]
  | c :: cs => by
    intro hx
    rw [replaceChar] at hx
    rcases List.mem_append.mp hx with h | h
    · by_cases hc : c = a
      · rw [if_pos hc] at h
        exact Or.inl h
      · rw [if_neg hc] at h
        simp only [List.mem_singleton] at h
        exact Or.inr (by simp [h])
    · rcases mem_replaceChar a r x cs h with h' | h'
      · exact Or.inl h'
      · exact Or.inr (List.mem_cons_of_mem c h')

lemma mem_replaceTriple (p1 p2 p3 : Char) (r : List Char) (x : Char) :
    ∀ l : List Char, x ∈ replaceTriple p1 p2 p3 r l → x ∈ r ∨ x ∈ l
  | [] => fun h => Or.inr h
  | [c] => fun h => Or.inr h
  | [c, d] => fun h => Or.inr h
  | c :: d :: e :: cs => by
    intro hx
    rw [replaceTriple] at hx
    by_cases h : c = p1 ∧ d = p2 ∧ e = p3
    · rw [if_pos h] at hx
      rcases List.mem_append.mp hx with h' | h'
      · exact Or.inl h'
      · rcases mem_replaceTriple p1 p2 p3 r x cs h' with h'' | h''
        · exact Or.inl h''
        · exact Or.inr (by simp [h''])
    · rw [if_neg h] at hx
      rcases List.mem_cons.mp hx with h' | h'
      · exact Or.inr (by simp [h'])
      · rcases mem_replaceTriple p1 p2 p3 r x (d :: e :: cs) h' with h'' | h''
        · exact Or.inl h''
        · exact Or.inr (List.mem_cons_of_mem c h'')

lemma hasTriple_iff (p1 p2 p3 x : Char) :
    ∀ l : List Char, hasTriple p1 p2 p3 (x :: l) ↔
      (x = p1 ∧ l.take 2 = [p2, p3]) ∨ hasTriple p1 p2 p3 l
  | [] => by simp [hasTriple]
  | [y] => by simp [hasTriple]
  | y :: z :: ls => by simp [hasTriple, and_assoc]

lemma not_hasTriple_tail (p1 p2 p3 x : Char) (l : List Char)
    (h : ¬ hasTriple p1 p2 p3 (x :: l)) : ¬ hasTriple p1 p2 p3 l :=
  fun hl => h ((hasTriple_iff p1 p2 p3 x l).mpr (Or.inr hl))

lemma replaceTriple_eq_self (p1 p2 p3 : Char) (r : List Char) :
    ∀ l : List Char, ¬ hasTriple p1 p2 p3 l → replaceTriple p1 p2 p3 r l = l
  | [], _ => rfl
  | [c], _ => rfl
  | [c, d], _ => rfl
  | c :: d :: e :: cs, h => by
    have hne : ¬(c = p1 ∧ d = p2 ∧ e = p3) := fun hm => h (Or.inl hm)
    have htail : ¬ hasTriple p1 p2 p3 (d :: e :: cs) := fun hm => h (Or.inr hm)
    rw [replaceTriple, if_neg hne,
      replaceTriple_eq_self p1 p2 p3 r (d :: e :: cs) htail]

lemma replaceTriple_take_one (p1 p2 p3 : Char) (rr : List Char) :
    ∀ l : List Char, (replaceTriple p1 p2 p3 (p1 :: rr) l).take 1 = l.take 1
  | [] => rfl
  | [c] => rfl
  | [c, d] => rfl
  | c :: d :: e :: cs => by
    by_cases h : c = p1 ∧ d = p2 ∧ e = p3
    · rw [replaceTriple, if_pos h]
      simp [h.1]
    · rw [replaceTriple, if_neg h]
      simp

lemma replaceTriple_take_two (p1 p2 p3 r2 : Char) (rr : List Char) :
    ∀ l : List Char,
      (replaceTriple p1 p2 p3 (p1 :: r2 :: rr) l).take 2 = l.take 2 ∨
      (replaceTriple p1 p2 p3 (p1 :: r2 :: rr) l).take 2 = [p1, r2]
  | [] => Or.inl rfl
  | [c] => Or.inl rfl
  | [c, d] => Or.inl rfl
  | c :: d :: e :: cs => by
    by_cases h : c = p1 ∧ d = p2 ∧ e = p3
    · right
      rw [replaceTriple, if_pos h]
      rfl
    · left
      rw [replaceTriple, if_neg h]
      have h1 := replaceTriple_take_one p1 p2 p3 (r2 :: rr) (d :: e :: cs)
      simp [h1]

/-- `lg(` does not occur in `log10( ++ X` unless it occurs in `X`. -/
lemma lg_absent_log10_append (X : List Char)
    (hX : ¬ hasTriple 'l' 'g' '(' X) :
    ¬ hasTriple 'l' 'g' '(' (['l', 'o', 'g', '1', '0', '('] ++ X) := by
  intro h
  simp only [List.cons_append, List.nil_append] at h
  rw [hasTriple_iff] at h
  rcases h with ⟨h1, h2⟩ | h
  · simp at h2
  rw [hasTriple_iff] at h
  rcases h with ⟨h1, h2⟩ | h
  · exact absurd h1 (by decide)
  rw [hasTriple_iff] at h
  rcases h with ⟨h1, h2⟩ | h
  · exact absurd h1 (by decide)
  rw [hasTriple_iff] at h
  rcases h with ⟨h1, h2⟩ | h
  · exact absurd h1 (by decide)
  rw [hasTriple_iff] at h
  rcases h with ⟨h1, h2⟩ | h
  · exact absurd h1 (by decide)
  rw [hasTriple_iff] at h
  rcases h with ⟨h1, h2⟩ | h
  · exact absurd h1 (by decide)
  exact hX h

/-- `ln(` does not occur in `log( ++ X` unless it occurs in `X`. -/
lemma ln_absent_log_append (X : List Char)
    (hX : ¬ hasTriple 'l' 'n' '(' X) :
    ¬ hasTriple 'l' 'n' '(' (['l', 'o', 'g', '('] ++ X) := by
  intro h
  simp only [List.cons_append, List.nil_append] at h
  rw [hasTriple_iff] at h
  rcases h with ⟨h1, h2⟩ | h
  · simp at h2
  rw [hasTriple_iff] at h
  rcases h with ⟨h1, h2⟩ | h
  · exact absurd h1 (by decide)
  rw [hasTriple_iff] at h
  rcases h with ⟨h1, h2⟩ | h
  · exact absurd h1 (by decide)
  rw [hasTriple_iff] at h
  rcases h with ⟨h1, h2⟩ | h
  · exact absurd h1 (by decide)
  exact hX h

/-- `lg(` does not occur in `log( ++ X` unless it occurs in `X`. -/
lemma lg_absent_log_append (X : List Char)
    (hX : ¬ hasTriple 'l' 'g' '(' X) :
    ¬ hasTriple 'l' 'g' '(' (['l', 'o', 'g', '('] ++ X) := by
  intro h
  simp only [List.cons_append, List.nil_append] at h
  rw [hasTriple_iff] at h
  rcases h with ⟨h1, h2⟩ | h
  · simp at h2
  rw [hasTriple_iff] at h
  rcases h with ⟨h1, h2⟩ | h
  · exact absurd h1 (by decide)
  rw [hasTriple_iff] at h
  rcases h with ⟨h1, h2⟩ | h
  · exact absurd h1 (by decide)
  rw [hasTriple_iff] at h
  rcases h with ⟨h1, h2⟩ | h
  · exact absurd h1 (by decide)
  exact hX h

/-- The `lg( → log10(` pass leaves no `lg(` behind. -/
lemma not_hasLg_replaceLg : ∀ l : List Char,
    ¬ hasTriple 'l' 'g' '('
      (replaceTriple 'l' 'g' '(' ['l', 'o', 'g', '1', '0', '('] l)
  | [] => by simp [replaceTriple, hasTriple]
  | [c] => by simp [replaceTriple, hasTriple]
  | [c, d] => by simp [replaceTriple, hasTriple]
  | c :: d :: e :: cs => by
    by_cases h : c = 'l' ∧ d = 'g' ∧ e = '('
    · rw [replaceTriple, if_pos h]
      exact lg_absent_log10_append _ (not_hasLg_replaceLg cs)
    · rw [replaceTriple, if_neg h]
      intro hcon
      rw [hasTriple_iff] at hcon
      rcases hcon with ⟨h1, h2⟩ | hcon
      · rcases replaceTriple_take_two 'l' 'g' '(' 'o' ['g', '1', '0', '(']
          (d :: e :: cs) with ht | ht
        · rw [ht] at h2
          simp at h2
          exact h ⟨h1, h2.1, h2.2⟩
        · rw [ht] at h2
          simp at h2
      · exact not_hasLg_replaceLg (d :: e :: cs) hcon

/-- The `ln( → log(` pass leaves no `ln(` behind. -/
lemma not_hasLn_replaceLn : ∀ l : List Char,
    ¬ hasTriple 'l' 'n' '('
      (replaceTriple 'l' 'n' '(' ['l', 'o', 'g', '('] l)
  | [] => by simp [replaceTriple, hasTriple]
  | [c] => by simp [replaceTriple, hasTriple]
  | [c, d] => by simp [replaceTriple, hasTriple]
  | c :: d :: e :: cs => by
    by_cases h : c = 'l' ∧ d = 'n' ∧ e = '('
    · rw [replaceTriple, if_pos h]
      exact ln_absent_log_append _ (not_hasLn_replaceLn cs)
    · rw [replaceTriple, if_neg h]
      intro hcon
      rw [hasTriple_iff] at hcon
      rcases hcon with ⟨h1, h2⟩ | hcon
      · rcases replaceTriple_take_two 'l' 'n' '(' 'o' ['g', '(']
          (d :: e :: cs) with ht | ht
        · rw [ht] at h2
          simp at h2
          exact h ⟨h1, h2.1, h2.2⟩
        · rw [ht] at h2
          simp at h2
      · exact not_hasLn_replaceLn (d :: e :: cs) hcon

/-- The `ln( → log(` pass introduces no `lg(`. -/
lemma not_hasLg_replaceLn : ∀ l : List Char,
    ¬ hasTriple 'l' 'g' '(' l →
    ¬ hasTriple 'l' 'g' '('
      (replaceTriple 'l' 'n' '(' ['l', 'o', 'g', '('] l)
  | [], _ => by simp [replaceTriple, hasTriple]
  | [c], _ => by simp [replaceTriple, hasTriple]
  | [c, d], _ => by simp [replaceTriple, hasTriple]
  | c :: d :: e :: cs, h => by
    by_cases hm : c = 'l' ∧ d = 'n' ∧ e = '('
    · rw [replaceTriple, if_pos hm]
      have h3 : ¬ hasTriple 'l' 'g' '(' cs :=
        not_hasTriple_tail _ _ _ _ _
          (not_hasTriple_tail _ _ _ _ _ (not_hasTriple_tail _ _ _ _ _ h))
      exact lg_absent_log_append _ (not_hasLg_replaceLn cs h3)
    · rw [replaceTriple, if_neg hm]
      intro hcon
      rw [hasTriple_iff] at hcon
      rcases hcon with ⟨h1, h2⟩ | hcon
      · rcases replaceTriple_take_two 'l' 'n' '(' 'o' ['g', '(']
          (d :: e :: cs) with ht | ht
        · rw [ht] at h2
          simp at h2
          exact h (Or.inl ⟨h1, h2.1, h2.2⟩)
        · rw [ht] at h2
          simp at h2
      · exact not_hasLg_replaceLn (d :: e :: cs)
          (not_hasTriple_tail _ _ _ _ _ h) hcon

/-- `×` is gone after normalization. -/
lemma noMul_normalizeData (l : List Char) : '×' ∉ normalizeData l := by
  intro h
  rw [normalizeData] at h
  rcases mem_replaceTriple _ _ _ _ _ _ h with h | h
  · exact absurd h (by decide)
  rcases mem_replaceTriple _ _ _ _ _ _ h with h | h
  · exact absurd h (by decide)
  rcases mem_replaceChar _ _ _ _ h with h | h
  · exact absurd h (by decide)
  rcases mem_replaceChar _ _ _ _ h with h | h
  · exact absurd h (by decide)
  exact not_mem_replaceChar '×' ['*'] (by decide) l h

/-- `÷` is gone after normalization. -/
lemma noDiv_normalizeData (l : List Char) : '÷' ∉ normalizeData l := by
  intro h
  rw [normalizeData] at h
  rcases mem_replaceTriple _ _ _ _ _ _ h with h | h
  · exact absurd h (by decide)
  rcases mem_replaceTriple _ _ _ _ _ _ h with h | h
  · exact absurd h (by decide)
  rcases mem_replaceChar _ _ _ _ h with h | h
  · exact absurd h (by decide)
  exact not_mem_replaceChar '÷' ['/'] (by decide) _ h

/-- `π` is gone after normalization. -/
lemma noPi_normalizeData (l : List Char) : 'π' ∉ normalizeData l := by
  intro h
  rw [normalizeData] at h
  rcases mem_replaceTriple _ _ _ _ _ _ h with h | h
  · exact absurd h (by decide)
  rcases mem_replaceTriple _ _ _ _ _ _ h with h | h
  · exact absurd h (by decide)
  exact not_mem_replaceChar 'π' ['p', 'i'] (by decide) _ h

/-- `lg(` is gone after normalization. -/
lemma noLg_normalizeData (l : List Char) :
    ¬ hasTriple 'l' 'g' '(' (normalizeData l) :=
  not_hasLg_replaceLn _ (not_hasLg_replaceLg _)

/-- `ln(` is gone after normalization. -/
lemma noLn_normalizeData (l : List Char) :
    ¬ hasTriple 'l' 'n' '(' (normalizeData l) :=
  not_hasLn_replaceLn _

/-- The rewrite chain is idempotent on character lists. -/
lemma normalizeData_idem (l : List Char) :
    normalizeData (normalizeData l) = normalizeData l := by
  have h1 := replaceChar_eq_self '×' ['*'] (normalizeData l) (noMul_normalizeData l)
  have h2 := replaceChar_eq_self '÷' ['/'] (normalizeData l) (noDiv_normalizeData l)
  have h3 := replaceChar_eq_self 'π' ['p', 'i'] (normalizeData l) (noPi_normalizeData l)
  have h4 := replaceTriple_eq_self 'l' 'g' '(' ['l', 'o', 'g', '1', '0', '(']
    (normalizeData l) (noLg_normalizeData l)
  have h5 := replaceTriple_eq_self 'l' 'n' '(' ['l', 'o', 'g', '(']
    (normalizeData l) (noLn_normalizeData l)
  show replaceTriple 'l' 'n' '(' ['l', 'o', 'g', '(']
      (replaceTriple 'l' 'g' '(' ['l', 'o', 'g', '1', '0', '(']
        (replaceChar 'π' ['p', 'i']
          (replaceChar '÷' ['/']
            (replaceChar '×' ['*'] (normalizeData l))))) = normalizeData l
  rw [h1, h2, h3, h4, h5]

/-- C4: the normalizer rewrite step is idempotent on every input string,
and on the spec's examples it sends `"2×3÷4"` to `"2*3/4"` and fixes
`"2*3/4"`. -/
theorem normalize_idempotent :
    (∀ s : String, normalize (normalize s) = normalize s) ∧
    normalize "2×3÷4" = "2*3/4" ∧ normalize "2*3/4" = "2*3/4" := by
  refine ⟨fun s => ?_, by decide, by decide⟩
  show String.mk (normalizeData (normalize s).data) = String.mk (normalizeData s.data)
  rw [show (normalize s).data = normalizeData s.data from rfl, normalizeData_idem]

/-- Witness for C10: after a result `"7"`, pressing `"5"` replaces the
buffer. -/
theorem keypad_literal_replaces_shown_result_witness :
    (handleButtonClick (fun _ _ => none) (fun _ => .threw) 0 "5"
      ⟨"7", "7", [], false, false, false, false⟩).input = "5" :=
  (keypad_literal_replaces_shown_result (fun _ _ => none) (fun _ => .threw) 0
    "5" ⟨"7", "7", [], false, false, false, false⟩ rfl rfl (by decide)).1
    (by decide) rfl (by decide)

end Calculator
